import Mathlib

/-! # jtimon: vendor registry and session launch

A shallow embedding of `multi_vendor.go` (the vendor registry and `getVendor`)
and of the session-launch part of `main` in `main.go` (from `var wg` to
`wg.Wait()`), with the properties of both proved over the embedding.

Conventions of the embedding:

* a Go function value stored in a struct field is an `Option Func`, where `none`
  is Go's `nil` and `some f` is the top-level function `f`;
* a Go `(*T, error)` result is a pair of options, `none` being `nil`;
* `main` is a state-passing function over `MainState`, which also records the
  sequence of actions `main` performs;
* `worker`, which `main` calls and whose body is not part of the two files, is a
  parameter: its result may depend on the position of the call as well as on the
  file name, since it reads the file system.
-/

namespace Jtimon

/-! ## multi_vendor.go -/

/-- The top-level functions that `multi_vendor.go` stores in descriptor fields. -/
inductive Func where
  | loginCheckJunos
  | subscribeJunos
  | dialExtensionXR
  | subscribeXR
deriving DecidableEq, Repr

/-- The struct `vendor`: one descriptor per supported vendor. -/
structure vendor where
  name : String
  loginCheckRequired : Bool
  sendLoginCheck : Option Func
  dialExt : Option Func
  subscribe : Option Func
deriving DecidableEq, Repr

/-- The constructor `newJuniperJUNOS`. -/
def newJuniperJUNOS : vendor :=
  { name := "juniper-junos"
    loginCheckRequired := true
    sendLoginCheck := some Func.loginCheckJunos
    dialExt := none
    subscribe := some Func.subscribeJunos }

/-- The constructor `newCiscoIOSXR`. -/
def newCiscoIOSXR : vendor :=
  { name := "cisco-iosxr"
    loginCheckRequired := false
    sendLoginCheck := none
    dialExt := some Func.dialExtensionXR
    subscribe := some Func.subscribeXR }

/-- The package variable `vendors`. -/
def vendors : List vendor := [newJuniperJUNOS, newCiscoIOSXR]

/-- The part of the vendor section of a configuration that `getVendor` reads. -/
structure VendorConfig where
  Name : String
deriving DecidableEq, Repr

/-- The part of a configuration that `getVendor` reads. -/
structure Config where
  Vendor : VendorConfig
deriving DecidableEq, Repr

/-- The part of a session context that `getVendor` reads. -/
structure JCtx where
  config : Config
deriving DecidableEq, Repr

/-- The loop `for _, vendor := range vendors` of `getVendor`, over the descriptors
still to be visited: the first descriptor whose name is `name`, if any. -/
def getVendorLoop (name : String) : List vendor → Option vendor
  | [] => none
  | v :: rest => if name = v.name then some v else getVendorLoop name rest

/-- The function `getVendor`: the descriptor and the error it returns. -/
def getVendor (jctx : JCtx) : Option vendor × Option String :=
  let name := jctx.config.Vendor.Name
  -- juniper-junos is default
  let name := if name = "" then "juniper-junos" else name
  match getVendorLoop name vendors with
  | some v => (some v, none)
  | none => (none, some ("support for vendor [" ++ name ++ "] has not implemented yet"))

/-- A session context whose vendor name is `n`. -/
def jctxOfName (n : String) : JCtx := { config := { Vendor := { Name := n } } }

/-! ## main.go -/

/-- A channel, named by a number: the `chan os.Signal` a worker hands back. -/
abbrev Chan := Nat

/-- The struct `workerCtx`: the control handle of a session. `err = none` is a
nil error. -/
structure workerCtx where
  signalch : Chan
  err : Option String
deriving DecidableEq, Repr

/-- The result of a call `worker(file, &wg)`: the channel and the error. -/
abbrev WorkerResult := Chan × Option String

/-- The function `worker` as `main` sees it: the result of the call made at
position `idx` of the launch loop for the file `file`. -/
abbrev Worker := Nat → String → WorkerResult

/-- What `main` does, one action at a time, from `var wg` on. -/
inductive Action where
  /-- The call `wg.Add(delta)`. -/
  | wgAdd (delta : Nat)
  /-- The call `worker(file, &wg)` made at position `idx` of the launch loop. -/
  | callWorker (idx : Nat) (file : String)
  /-- The call `wg.Done()`. -/
  | wgDone
  /-- The assignment `wMap[file] = ctx`. -/
  | mapStore (file : String) (ctx : workerCtx)
  /-- The send `ch <- syscall.SIGCONT`. -/
  | sendStart (ch : Chan)
  /-- The statement `go signalHandler(...)`. -/
  | goSignalHandler
  /-- The statement `go maxRunHandler(...)`. -/
  | goMaxRunHandler
  /-- The call `wg.Wait()`. -/
  | wgWait
deriving DecidableEq, Repr

/-- A Go `map[string]*workerCtx`: at most one entry per key. -/
abbrev WMap := List (String × workerCtx)

/-- The assignment `m[k] = w` on a map: the entry under `k` is replaced when
there is one, added otherwise. -/
def mapAssign : WMap → String → workerCtx → WMap
  | [], k, w => [(k, w)]
  | (k', w') :: rest, k, w =>
    if k' = k then (k, w) :: rest else (k', w') :: mapAssign rest k w

/-- The lookup `m[k]` on a map. -/
def mapLookup : WMap → String → Option workerCtx
  | [], _ => none
  | (k', w') :: rest, k => if k' = k then some w' else mapLookup rest k

/-- The state of `main` from `var wg` on: what `main` itself has added to the
counter of `wg`, the handle map, and the actions performed so far. -/
structure MainState where
  wg : Int
  wMap : WMap
  trace : List Action
deriving DecidableEq, Repr

/-- The body of the launch loop for the file at position `idx`. -/
def launchBody (worker : Worker) (st : MainState) (idx : Nat) (file : String) :
    MainState :=
  -- wg.Add(1)
  let st := { st with wg := st.wg + 1, trace := st.trace ++ [Action.wgAdd 1] }
  -- signalch, err := worker(file, &wg)
  let r := worker idx file
  let signalch := r.1
  let err := r.2
  let st := { st with trace := st.trace ++ [Action.callWorker idx file] }
  if err ≠ none then
    -- wg.Done()
    { st with wg := st.wg - 1, trace := st.trace ++ [Action.wgDone] }
  else
    let ctx : workerCtx := { signalch := signalch, err := err }
    { st with
      wMap := mapAssign st.wMap file ctx
      trace := st.trace ++ [Action.mapStore file ctx] }

/-- The launch loop `for _, file := range *cfgFile`, from position `idx` on. -/
def launchLoop (worker : Worker) : MainState → Nat → List String → MainState
  | st, _, [] => st
  | st, idx, file :: rest => launchLoop worker (launchBody worker st idx file) (idx + 1) rest

/-- The fan-out loop `for _, wCtx := range wMap`, over the entries still to be
visited, in the order the iteration visits them. -/
def fanoutLoop : MainState → List (String × workerCtx) → MainState
  | st, [] => st
  | st, (_, wCtx) :: rest =>
    if wCtx.err = none then
      fanoutLoop { st with trace := st.trace ++ [Action.sendStart wCtx.signalch] } rest
    else
      fanoutLoop st rest

/-- The function `main` from `var wg` to `wg.Wait()`. The order in which
`range wMap` visits the entries of a map is not fixed by Go: `order` gives it. A
send is recorded when `main` performs it; its receipt by the goroutine of the
worker is not part of this function. -/
def mainLaunch (worker : Worker) (order : WMap → List (String × workerCtx))
    (cfgFile : List String) : MainState :=
  let st : MainState := { wg := 0, wMap := [], trace := [] }
  let st := launchLoop worker st 0 cfgFile
  let st := fanoutLoop st (order st.wMap)
  let st := { st with trace := st.trace ++ [Action.goSignalHandler] }
  let st := { st with trace := st.trace ++ [Action.goMaxRunHandler] }
  { st with trace := st.trace ++ [Action.wgWait] }

/-- An iteration order of `range` over a map: every entry is visited exactly
once. -/
def RangeOrder (order : WMap → List (String × workerCtx)) : Prop :=
  ∀ m, (order m).Perm m

/-! ### Readings of a run -/

/-- The calls of the launch loop, from position `idx` on, for which `worker`
returned a nil error: position and file of each, in the order of the calls. -/
def constructedUnits (worker : Worker) (idx : Nat) (units : List String) :
    List (Nat × String) :=
  (units.enumFrom idx).filter (fun p => decide ((worker p.1 p.2).2 = none))

/-- The calls of the launch loop, from position `idx` on, for which `worker`
returned a non-nil error. -/
def failedUnits (worker : Worker) (idx : Nat) (units : List String) :
    List (Nat × String) :=
  (units.enumFrom idx).filter (fun p => decide ((worker p.1 p.2).2 ≠ none))

/-- The channels handed back by the calls of `worker` that returned a nil error,
one per such call, in the order of the calls. -/
def constructedChans (worker : Worker) (units : List String) : List Chan :=
  (constructedUnits worker 0 units).map (fun p => (worker p.1 p.2).1)

/-- The initial state of `main` at `var wg`. -/
def initState : MainState := { wg := 0, wMap := [], trace := [] }

/-- The actions of the launch loop from position `idx` on: those of each pass of
its body, one pass after the other. -/
def launchActions (worker : Worker) : Nat → List String → List Action
  | _, [] => []
  | idx, file :: rest =>
    (launchBody worker initState idx file).trace ++ launchActions worker (idx + 1) rest

/-- The handle stored for a call of `worker`. -/
def handleOf (worker : Worker) (p : Nat × String) : workerCtx :=
  { signalch := (worker p.1 p.2).1, err := (worker p.1 p.2).2 }

/-- Modelled from the spec: the capabilities a session invokes on the descriptor
it resolved (the session code is not part of `multi_vendor.go` and `main.go`):
`sendLoginCheck` only when `loginCheckRequired` is true, then `subscribe`. -/
def sessionCalls (v : vendor) : List (Option Func) :=
  (if v.loginCheckRequired = true then [v.sendLoginCheck] else []) ++ [v.subscribe]

/-- The channels on which a sequence of actions sends the start signal, in
order. -/
def sentChans : List Action → List Chan
  | [] => []
  | Action.sendStart ch :: rest => ch :: sentChans rest
  | _ :: rest => sentChans rest

/-- The number of calls `wg.Add(1)` in a sequence of actions. -/
def countAdd (tr : List Action) : Nat := tr.count (Action.wgAdd 1)

/-- The number of calls `wg.Done()` in a sequence of actions. -/
def countDone (tr : List Action) : Nat := tr.count Action.wgDone

/-- Whether an action is a call of `worker`. -/
def Action.isCallWorker : Action → Bool
  | Action.callWorker _ _ => true
  | _ => false

/-- Whether an action is the launch of a stop monitor. -/
def Action.isMonitor : Action → Bool
  | Action.goSignalHandler => true
  | Action.goMaxRunHandler => true
  | _ => false

/-- A worker whose every call fails. -/
def workerAllFail : Worker := fun _ _ => (0, some "construction failed")

/-- A worker whose every call succeeds, the call at position `idx` handing back
the channel `idx`. -/
def workerAllOk : Worker := fun idx _ => (idx, none)

/-- A worker whose call at position `1` succeeds, handing back the channel `1`,
and whose every other call fails. -/
def workerSecondOnly : Worker := fun idx _ =>
  if idx = 1 then (idx, none) else (0, some "construction failed")

/-- A worker that succeeds exactly on the file `"good.json"`. -/
def workerGoodOnly : Worker := fun idx file =>
  if file = "good.json" then (idx, none) else (0, some "construction failed")

/-! ## Properties of the vendor registry -/

/-- The names of the registry, in order. -/
theorem vendors_names : vendors.map vendor.name = ["juniper-junos", "cisco-iosxr"] := by
  decide

/-- What `getVendor` computes, by cases on the name after the default is applied. -/
theorem getVendor_cases (jctx : JCtx) :
    getVendor jctx =
      if (if jctx.config.Vendor.Name = "" then "juniper-junos"
          else jctx.config.Vendor.Name) = "juniper-junos" then
        (some newJuniperJUNOS, none)
      else if (if jctx.config.Vendor.Name = "" then "juniper-junos"
          else jctx.config.Vendor.Name) = "cisco-iosxr" then
        (some newCiscoIOSXR, none)
      else
        (none, some ("support for vendor [" ++
          (if jctx.config.Vendor.Name = "" then "juniper-junos"
           else jctx.config.Vendor.Name) ++ "] has not implemented yet")) := by
  unfold getVendor
  simp only [vendors, getVendorLoop, newJuniperJUNOS, newCiscoIOSXR]
  split_ifs <;> rfl

/-- The loop of `getVendor` finds a descriptor exactly when the name is in the
list it walks, and the descriptor found bears the name. -/
theorem getVendorLoop_some (name : String) (vs : List vendor) (v : vendor)
    (h : getVendorLoop name vs = some v) : v ∈ vs ∧ v.name = name := by
  induction vs with
  | nil => simp [getVendorLoop] at h
  | cons w rest ih =>
    unfold getVendorLoop at h
    split_ifs at h with hw
    · cases h
      exact ⟨List.mem_cons_self _ _, hw.symm⟩
    · exact ⟨List.mem_cons_of_mem _ (ih h).1, (ih h).2⟩

/-- Claim C1. `getVendor` is total and exact. With `n'` the vendor name of the
configuration, or `"juniper-junos"` when that name is empty: `getVendor` returns a
descriptor and a nil error if and only if `n'` is the name of a descriptor of
`vendors`; the names of `vendors` are exactly `"juniper-junos"` and
`"cisco-iosxr"`; a returned descriptor has the name `n'`; and when `n'` is not a
registered name the descriptor is nil and the error is not. -/
theorem C1_getVendor_total_exact (jctx : JCtx) :
    ((∃ v, getVendor jctx = (some v, none)) ↔
      (if jctx.config.Vendor.Name = "" then "juniper-junos" else jctx.config.Vendor.Name)
        ∈ vendors.map vendor.name) ∧
    ((if jctx.config.Vendor.Name = "" then "juniper-junos" else jctx.config.Vendor.Name)
        ∈ vendors.map vendor.name ↔
      ((if jctx.config.Vendor.Name = "" then "juniper-junos" else jctx.config.Vendor.Name)
          = "juniper-junos" ∨
       (if jctx.config.Vendor.Name = "" then "juniper-junos" else jctx.config.Vendor.Name)
          = "cisco-iosxr")) ∧
    (∀ v, (getVendor jctx).1 = some v →
      v ∈ vendors ∧ (getVendor jctx).2 = none ∧
      v.name =
        (if jctx.config.Vendor.Name = "" then "juniper-junos" else jctx.config.Vendor.Name)) ∧
    ((if jctx.config.Vendor.Name = "" then "juniper-junos" else jctx.config.Vendor.Name)
        ∉ vendors.map vendor.name →
      (getVendor jctx).1 = none ∧ (getVendor jctx).2 ≠ none) := by
  rw [getVendor_cases, vendors_names]
  generalize (if jctx.config.Vendor.Name = "" then "juniper-junos"
    else jctx.config.Vendor.Name) = n
  by_cases h1 : n = "juniper-junos"
  · subst h1
    simp [vendors, newJuniperJUNOS]
  · by_cases h2 : n = "cisco-iosxr"
    · subst h2
      simp [vendors, newCiscoIOSXR]
    · simp [h1, h2]

/-- Witness for C1 at the unsupported name `"unknown-vendor"`: the last part of
the theorem applies and gives a nil descriptor and a non-nil error. -/
theorem C1_getVendor_total_exact_witness :
    (getVendor (jctxOfName "unknown-vendor")).1 = none ∧
    (getVendor (jctxOfName "unknown-vendor")).2 ≠ none :=
  (C1_getVendor_total_exact (jctxOfName "unknown-vendor")).2.2.2 (by decide)

/-- Claim C2. The empty vendor name is normalized to the default vendor before the
lookup: `getVendor` on the name `""` returns the same result as on the name
`"juniper-junos"`, namely the juniper-junos descriptor and a nil error, and a
name on which `getVendor` returns the juniper-junos descriptor is `""` or
`"juniper-junos"`. -/
theorem C2_empty_name_is_default :
    getVendor (jctxOfName "") = getVendor (jctxOfName "juniper-junos") ∧
    getVendor (jctxOfName "") = (some newJuniperJUNOS, none) ∧
    (∀ jctx : JCtx, (getVendor jctx).1 = some newJuniperJUNOS →
      jctx.config.Vendor.Name = "" ∨ jctx.config.Vendor.Name = "juniper-junos") := by
  refine ⟨by decide, by decide, ?_⟩
  intro jctx h
  rw [getVendor_cases] at h
  by_cases h0 : jctx.config.Vendor.Name = ""
  · exact Or.inl h0
  · right
    simp only [h0, if_false] at h
    by_contra h1
    simp only [h1, if_false] at h
    split_ifs at h
    exact absurd h (by decide)

/-- Witness for C2 at the name `"juniper-junos"`. -/
theorem C2_empty_name_is_default_witness :
    (jctxOfName "juniper-junos").config.Vendor.Name = "" ∨
    (jctxOfName "juniper-junos").config.Vendor.Name = "juniper-junos" :=
  C2_empty_name_is_default.2.2 (jctxOfName "juniper-junos") (by decide)

/-- Claim C3. For every non-empty vendor name that is not the name of a registered
descriptor, `getVendor` returns a nil descriptor and the error whose message is
`"support for vendor [" ++ n ++ "] has not implemented yet"`. -/
theorem C3_unknown_vendor_error (jctx : JCtx)
    (hne : jctx.config.Vendor.Name ≠ "")
    (hunk : jctx.config.Vendor.Name ∉ vendors.map vendor.name) :
    getVendor jctx =
      (none, some ("support for vendor [" ++ jctx.config.Vendor.Name ++
        "] has not implemented yet")) := by
  rw [vendors_names] at hunk
  simp only [List.mem_cons, List.mem_singleton, List.not_mem_nil, or_false, not_or] at hunk
  rw [getVendor_cases]
  simp [hne, hunk.1, hunk.2]

/-- Witness for C3 at the name `"unknown-vendor"` of Scenario B. -/
theorem C3_unknown_vendor_error_witness :
    getVendor (jctxOfName "unknown-vendor") =
      (none, some "support for vendor [unknown-vendor] has not implemented yet") :=
  C3_unknown_vendor_error (jctxOfName "unknown-vendor") (by decide) (by decide)

/-- Claim C4. Vendor dispatch: the descriptor resolved for `"cisco-iosxr"` has
`loginCheckRequired = false` and a nil `sendLoginCheck`; the descriptor resolved
for `"juniper-junos"` and for the empty name has `loginCheckRequired = true` and a
non-nil `sendLoginCheck`. -/
theorem C4_vendor_dispatch :
    (∃ v, getVendor (jctxOfName "cisco-iosxr") = (some v, none) ∧
      v.loginCheckRequired = false ∧ v.sendLoginCheck = none) ∧
    (∃ v, getVendor (jctxOfName "juniper-junos") = (some v, none) ∧
      v.loginCheckRequired = true ∧ v.sendLoginCheck ≠ none) ∧
    (∃ v, getVendor (jctxOfName "") = (some v, none) ∧
      v.loginCheckRequired = true ∧ v.sendLoginCheck ≠ none) :=
  ⟨⟨newCiscoIOSXR, by decide, by decide, by decide⟩,
   ⟨newJuniperJUNOS, by decide, by decide, by decide⟩,
   ⟨newJuniperJUNOS, by decide, by decide, by decide⟩⟩

/-- Claim C5. Registry invariant: no two entries of `vendors` have the same name, so
the loop of `getVendor` returns the one descriptor of `vendors` that bears the
looked-up name. -/
theorem C5_registry_names_unique :
    (vendors.map vendor.name).Nodup ∧
    (∀ i j : Fin vendors.length, (vendors.get i).name = (vendors.get j).name → i = j) ∧
    (∀ (jctx : JCtx) (v : vendor), v ∈ vendors →
      v.name = (if jctx.config.Vendor.Name = "" then "juniper-junos"
                else jctx.config.Vendor.Name) →
      getVendor jctx = (some v, none)) := by
  refine ⟨by decide, by decide, ?_⟩
  intro jctx v hv hname
  rw [getVendor_cases, ← hname]
  simp only [vendors, List.mem_cons, List.mem_singleton, List.not_mem_nil, or_false] at hv
  rcases hv with rfl | rfl
  · simp [newJuniperJUNOS]
  · simp [newCiscoIOSXR]

/-- Witness for C5 at the descriptor of `"cisco-iosxr"`. -/
theorem C5_registry_names_unique_witness :
    getVendor (jctxOfName "cisco-iosxr") = (some newCiscoIOSXR, none) :=
  C5_registry_names_unique.2.2 (jctxOfName "cisco-iosxr") newCiscoIOSXR (by decide) (by decide)

/-- Claim C10. Every descriptor of `vendors` is well-formed in its capability
flags: `subscribe` is non-nil, and `sendLoginCheck` is non-nil if and only if
`loginCheckRequired` is true. Hence, on every name on which `getVendor` returns a
descriptor, a session that calls `sendLoginCheck` only when `loginCheckRequired`
is true and then calls `subscribe` invokes no nil capability. -/
theorem C10_descriptors_well_formed :
    (∀ v ∈ vendors, v.subscribe ≠ none ∧
      (v.sendLoginCheck ≠ none ↔ v.loginCheckRequired = true)) ∧
    (∀ (jctx : JCtx) (v : vendor), (getVendor jctx).1 = some v →
      ∀ c ∈ sessionCalls v, c ≠ none) := by
  have hwf : ∀ v ∈ vendors, v.subscribe ≠ none ∧
      (v.sendLoginCheck ≠ none ↔ v.loginCheckRequired = true) := by decide
  refine ⟨hwf, ?_⟩
  intro jctx v hv c hc
  have hmem : v ∈ vendors := by
    rw [getVendor_cases] at hv
    split_ifs at hv <;> simp only [Option.some.injEq, reduceCtorEq] at hv <;>
      subst hv <;> decide
  obtain ⟨hsub, hlogin⟩ := hwf v hmem
  unfold sessionCalls at hc
  rcases List.mem_append.mp hc with h | h
  · split_ifs at h with hreq
    · rw [List.mem_singleton.mp h]
      exact hlogin.mpr hreq
    · simp at h
  · rw [List.mem_singleton.mp h]
    exact hsub

/-- Witness for C10 at the empty vendor name: the login check and the subscribe
function the session calls on the juniper-junos descriptor are both registered. -/
theorem C10_descriptors_well_formed_witness :
    (getVendor (jctxOfName "")).1 = some newJuniperJUNOS ∧
    ∀ c ∈ sessionCalls newJuniperJUNOS, c ≠ none :=
  ⟨by decide, C10_descriptors_well_formed.2 (jctxOfName "") newJuniperJUNOS (by decide)⟩

/-! ## Properties of the launch in `main` -/

/-- The start signals of two runs of actions, one after the other. -/
theorem sentChans_append (a b : List Action) :
    sentChans (a ++ b) = sentChans a ++ sentChans b := by
  induction a with
  | nil => rfl
  | cons x xs ih => cases x <;> simp [sentChans, ih]

/-- The actions of one pass of the launch loop body are appended to the trace. -/
theorem launchBody_trace (worker : Worker) (st : MainState) (idx : Nat) (file : String) :
    (launchBody worker st idx file).trace =
      st.trace ++ (launchBody worker initState idx file).trace := by
  unfold launchBody
  simp only [initState]
  split_ifs <;> simp

/-- The actions of one pass of the launch loop body. -/
theorem launchBody_actions (worker : Worker) (idx : Nat) (file : String) :
    (launchBody worker initState idx file).trace =
      if (worker idx file).2 = none then
        [Action.wgAdd 1, Action.callWorker idx file,
          Action.mapStore file (handleOf worker (idx, file))]
      else [Action.wgAdd 1, Action.callWorker idx file, Action.wgDone] := by
  unfold launchBody
  simp only [initState, handleOf]
  split_ifs <;> simp_all

/-- One pass of the launch loop body leaves the counter one higher when the
worker was constructed, and unchanged when it was not. -/
theorem launchBody_wg (worker : Worker) (st : MainState) (idx : Nat) (file : String) :
    (launchBody worker st idx file).wg =
      st.wg + (if (worker idx file).2 = none then 1 else 0) := by
  unfold launchBody
  split_ifs <;> simp_all

/-- One pass of the launch loop body stores a handle exactly when the worker was
constructed. -/
theorem launchBody_wMap (worker : Worker) (st : MainState) (idx : Nat) (file : String) :
    (launchBody worker st idx file).wMap =
      if (worker idx file).2 = none then
        mapAssign st.wMap file (handleOf worker (idx, file))
      else st.wMap := by
  unfold launchBody
  simp only [handleOf]
  split_ifs <;> simp_all

/-- The calls that were constructed, one position further. -/
theorem constructedUnits_cons (worker : Worker) (idx : Nat) (file : String)
    (rest : List String) :
    constructedUnits worker idx (file :: rest) =
      if (worker idx file).2 = none then
        (idx, file) :: constructedUnits worker (idx + 1) rest
      else constructedUnits worker (idx + 1) rest := by
  unfold constructedUnits
  simp only [List.enumFrom_cons, List.filter_cons]
  split_ifs <;> simp_all

/-- The calls that failed, one position further. -/
theorem failedUnits_cons (worker : Worker) (idx : Nat) (file : String)
    (rest : List String) :
    failedUnits worker idx (file :: rest) =
      if (worker idx file).2 = none then failedUnits worker (idx + 1) rest
      else (idx, file) :: failedUnits worker (idx + 1) rest := by
  unfold failedUnits
  simp only [List.enumFrom_cons, List.filter_cons]
  split_ifs <;> simp_all

/-- Every call of the launch loop either was constructed or failed. -/
theorem constructed_add_failed (worker : Worker) (idx : Nat) (units : List String) :
    (constructedUnits worker idx units).length + (failedUnits worker idx units).length =
      units.length := by
  induction units generalizing idx with
  | nil => rfl
  | cons file rest ih =>
    rw [constructedUnits_cons, failedUnits_cons]
    split_ifs <;> simp only [List.length_cons] <;> have := ih (idx + 1) <;> omega

/-- The trace after the launch loop. -/
theorem launchLoop_trace (worker : Worker) (st : MainState) (idx : Nat)
    (units : List String) :
    (launchLoop worker st idx units).trace = st.trace ++ launchActions worker idx units := by
  induction units generalizing st idx with
  | nil => simp [launchLoop, launchActions]
  | cons file rest ih =>
    rw [launchLoop, ih, launchBody_trace, launchActions, List.append_assoc]

/-- The counter after the launch loop. -/
theorem launchLoop_wg (worker : Worker) (st : MainState) (idx : Nat)
    (units : List String) :
    (launchLoop worker st idx units).wg =
      st.wg + ((constructedUnits worker idx units).length : Int) := by
  induction units generalizing st idx with
  | nil => simp [launchLoop, constructedUnits]
  | cons file rest ih =>
    rw [launchLoop, ih, launchBody_wg, constructedUnits_cons]
    split_ifs
    · rw [List.length_cons]
      push_cast
      omega
    · omega

/-- The handle map after the launch loop: the handles of the constructed calls,
assigned in the order of the calls. -/
theorem launchLoop_wMap (worker : Worker) (st : MainState) (idx : Nat)
    (units : List String) :
    (launchLoop worker st idx units).wMap =
      (constructedUnits worker idx units).foldl
        (fun m p => mapAssign m p.2 (handleOf worker p)) st.wMap := by
  induction units generalizing st idx with
  | nil => simp [launchLoop, constructedUnits]
  | cons file rest ih =>
    rw [launchLoop, ih, launchBody_wMap, constructedUnits_cons]
    split_ifs <;> simp

/-- The fan-out loop sends one start signal per visited handle with a nil error,
in the order of the visit. -/
theorem fanoutLoop_trace (st : MainState) (entries : List (String × workerCtx)) :
    (fanoutLoop st entries).trace =
      st.trace ++ (entries.filter (fun e => decide (e.2.err = none))).map
        (fun e => Action.sendStart e.2.signalch) := by
  induction entries generalizing st with
  | nil => simp [fanoutLoop]
  | cons e rest ih =>
    obtain ⟨k, w⟩ := e
    unfold fanoutLoop
    split_ifs with h
    · rw [ih]
      simp [h]
    · rw [ih]
      simp [h]

/-- The fan-out loop leaves the counter and the handle map as they are. -/
theorem fanoutLoop_wg_wMap (st : MainState) (entries : List (String × workerCtx)) :
    (fanoutLoop st entries).wg = st.wg ∧ (fanoutLoop st entries).wMap = st.wMap := by
  induction entries generalizing st with
  | nil => simp [fanoutLoop]
  | cons e rest ih =>
    obtain ⟨k, w⟩ := e
    unfold fanoutLoop
    split_ifs
    · exact ih _
    · exact ih _

/-- The trace of `main`: the launch loop, the fan-out, the two monitors, the
wait. -/
theorem mainLaunch_trace (worker : Worker) (order : WMap → List (String × workerCtx))
    (units : List String) :
    (mainLaunch worker order units).trace =
      launchActions worker 0 units ++
      (((order (launchLoop worker initState 0 units).wMap).filter
          (fun e => decide (e.2.err = none))).map (fun e => Action.sendStart e.2.signalch) ++
        [Action.goSignalHandler, Action.goMaxRunHandler, Action.wgWait]) := by
  simp [mainLaunch, fanoutLoop_trace, launchLoop_trace, initState]

/-- The counter and the handle map of `main` at the wait are those after the
launch loop. -/
theorem mainLaunch_wg_wMap (worker : Worker) (order : WMap → List (String × workerCtx))
    (units : List String) :
    (mainLaunch worker order units).wg = (launchLoop worker initState 0 units).wg ∧
    (mainLaunch worker order units).wMap = (launchLoop worker initState 0 units).wMap := by
  simp [mainLaunch, fanoutLoop_wg_wMap, initState]

/-- When no action of `front` satisfies `Q` and no action of `back` satisfies `P`,
an action satisfying `P` comes before an action satisfying `Q` in `front ++ back`. -/
theorem position_lt_of_split {α : Type} (front back : List α) (P Q : α → Prop)
    (hfront : ∀ a ∈ front, ¬ Q a) (hback : ∀ b ∈ back, ¬ P b)
    (i j : Nat) (a b : α) (hi : (front ++ back)[i]? = some a)
    (hj : (front ++ back)[j]? = some b) (ha : P a) (hb : Q b) : i < j := by
  by_contra hlt
  have hji : j ≤ i := Nat.le_of_not_lt hlt
  by_cases hjf : j < front.length
  · rw [List.getElem?_append_left hjf] at hj
    exact hfront b (List.mem_iff_getElem?.mpr ⟨j, hj⟩) hb
  · have hif : front.length ≤ i := by omega
    rw [List.getElem?_append_right hif] at hi
    exact hback a (List.mem_iff_getElem?.mpr ⟨_, hi⟩) ha

/-- The launch loop sends no start signal. -/
theorem launchActions_sentChans (worker : Worker) (idx : Nat) (units : List String) :
    sentChans (launchActions worker idx units) = [] := by
  induction units generalizing idx with
  | nil => rfl
  | cons file rest ih =>
    rw [launchActions, sentChans_append, ih, launchBody_actions]
    split_ifs <;> rfl

/-- The actions of the launch loop are `wg.Add(1)`, calls of `worker`,
`wg.Done()` and assignments to the map. -/
theorem launchActions_kinds (worker : Worker) (idx : Nat) (units : List String) :
    ∀ a ∈ launchActions worker idx units,
      a.isMonitor = false ∧ (∀ ch, a ≠ Action.sendStart ch) ∧ a ≠ Action.wgWait := by
  induction units generalizing idx with
  | nil => simp [launchActions]
  | cons file rest ih =>
    intro a ha
    rw [launchActions, List.mem_append, launchBody_actions] at ha
    rcases ha with ha | ha
    · split_ifs at ha <;>
        simp only [List.mem_cons, List.mem_singleton, List.not_mem_nil, or_false] at ha <;>
        rcases ha with rfl | rfl | rfl <;> simp [Action.isMonitor]
    · exact ih _ a ha

/-- The launch loop calls `worker` for every unit. -/
theorem launchActions_calls (worker : Worker) (idx : Nat) (units : List String) :
    ∀ p ∈ units.enumFrom idx, Action.callWorker p.1 p.2 ∈ launchActions worker idx units := by
  induction units generalizing idx with
  | nil => simp
  | cons file rest ih =>
    intro p hp
    rw [List.enumFrom_cons, List.mem_cons] at hp
    rw [launchActions, List.mem_append, launchBody_actions]
    rcases hp with rfl | hp
    · left
      split_ifs <;> simp
    · exact Or.inr (ih _ p hp)

/-- The launch loop calls `wg.Add(1)` once per unit and `wg.Done()` once per
failed call. -/
theorem launchActions_counts (worker : Worker) (idx : Nat) (units : List String) :
    countAdd (launchActions worker idx units) = units.length ∧
    countDone (launchActions worker idx units) = (failedUnits worker idx units).length := by
  induction units generalizing idx with
  | nil => exact ⟨rfl, rfl⟩
  | cons file rest ih =>
    obtain ⟨h1, h2⟩ := ih (idx + 1)
    unfold countAdd countDone at *
    rw [launchActions, List.count_append, List.count_append, h1, h2, launchBody_actions,
      failedUnits_cons]
    split_ifs <;> simp [List.count_cons] <;> omega

/-- The start signals after a run of sends on the channels of `entries`. -/
theorem sentChans_sends (entries : List (String × workerCtx)) :
    sentChans (entries.map (fun e => Action.sendStart e.2.signalch)) =
      entries.map (fun e => e.2.signalch) := by
  induction entries with
  | nil => rfl
  | cons e rest ih => simp [sentChans, ih]

/-- The start signals `main` sends: one on the channel of each visited handle
with a nil error, in the order of the visit. -/
theorem mainLaunch_sentChans (worker : Worker) (order : WMap → List (String × workerCtx))
    (units : List String) :
    sentChans (mainLaunch worker order units).trace =
      ((order (launchLoop worker initState 0 units).wMap).filter
        (fun e => decide (e.2.err = none))).map (fun e => e.2.signalch) := by
  rw [mainLaunch_trace, sentChans_append, sentChans_append, launchActions_sentChans,
    sentChans_sends]
  simp [sentChans]

/-! ### The handle map -/

/-- An entry of a map after an assignment is an old entry or the new one. -/
theorem mem_mapAssign (m : WMap) (k : String) (w : workerCtx) (e : String × workerCtx)
    (h : e ∈ mapAssign m k w) : e ∈ m ∨ e = (k, w) := by
  induction m with
  | nil =>
    simp only [mapAssign, List.mem_singleton] at h
    exact Or.inr h
  | cons x rest ih =>
    obtain ⟨k', w'⟩ := x
    unfold mapAssign at h
    split_ifs at h with hk
    · rcases List.mem_cons.mp h with h | h
      · exact Or.inr h
      · exact Or.inl (List.mem_cons_of_mem _ h)
    · rcases List.mem_cons.mp h with h | h
      · exact Or.inl (h ▸ List.mem_cons_self _ _)
      · rcases ih h with h | h
        · exact Or.inl (List.mem_cons_of_mem _ h)
        · exact Or.inr h

/-- The lookup after an assignment. -/
theorem mapLookup_mapAssign (m : WMap) (k : String) (w : workerCtx) (f : String) :
    mapLookup (mapAssign m k w) f = if k = f then some w else mapLookup m f := by
  induction m with
  | nil => simp [mapAssign, mapLookup]
  | cons x rest ih =>
    obtain ⟨k', w'⟩ := x
    unfold mapAssign
    split_ifs with hk hf hf
    · subst hk
      simp [mapLookup, hf]
    · subst hk
      simp [mapLookup, hf]
    · subst hf
      simp [mapLookup, hk, ih]
    · simp only [mapLookup, ih, if_neg hf]

/-- An assignment under a key the map does not hold adds the entry at the end. -/
theorem mapAssign_fresh (m : WMap) (k : String) (w : workerCtx)
    (h : mapLookup m k = none) : mapAssign m k w = m ++ [(k, w)] := by
  induction m with
  | nil => rfl
  | cons x rest ih =>
    obtain ⟨k', w'⟩ := x
    unfold mapLookup at h
    split_ifs at h with hk
    unfold mapAssign
    rw [if_neg hk, ih h]
    rfl

/-- An entry of the map after a run of assignments is an old entry or one of the
assigned ones. -/
theorem mem_foldl_mapAssign (worker : Worker) (ps : List (Nat × String)) (m : WMap)
    (e : String × workerCtx)
    (h : e ∈ ps.foldl (fun m p => mapAssign m p.2 (handleOf worker p)) m) :
    e ∈ m ∨ ∃ p ∈ ps, e = (p.2, handleOf worker p) := by
  induction ps generalizing m with
  | nil => exact Or.inl h
  | cons q rest ih =>
    rw [List.foldl_cons] at h
    rcases ih _ h with h | ⟨p, hp, he⟩
    · rcases mem_mapAssign _ _ _ _ h with h | h
      · exact Or.inl h
      · exact Or.inr ⟨q, List.mem_cons_self _ _, h⟩
    · exact Or.inr ⟨p, List.mem_cons_of_mem _ hp, he⟩

/-- A run of assignments under other keys leaves the lookup of a key as it was. -/
theorem mapLookup_foldl_other (worker : Worker) (ps : List (Nat × String)) (m : WMap)
    (f : String) (h : ∀ p ∈ ps, p.2 ≠ f) :
    mapLookup (ps.foldl (fun m p => mapAssign m p.2 (handleOf worker p)) m) f =
      mapLookup m f := by
  induction ps generalizing m with
  | nil => rfl
  | cons q rest ih =>
    rw [List.foldl_cons, ih _ (fun p hp => h p (List.mem_cons_of_mem _ hp)),
      mapLookup_mapAssign, if_neg (h q (List.mem_cons_self _ _))]

/-- A run of assignments under pairwise distinct keys that the map does not hold
adds the entries at the end, in order. -/
theorem foldl_mapAssign_fresh (worker : Worker) (ps : List (Nat × String)) (m : WMap)
    (hnodup : (ps.map Prod.snd).Nodup) (hfresh : ∀ p ∈ ps, mapLookup m p.2 = none) :
    ps.foldl (fun m p => mapAssign m p.2 (handleOf worker p)) m =
      m ++ ps.map (fun p => (p.2, handleOf worker p)) := by
  induction ps generalizing m with
  | nil => simp
  | cons q rest ih =>
    rw [List.map_cons, List.nodup_cons] at hnodup
    have hq : mapLookup m q.2 = none := hfresh q (List.mem_cons_self _ _)
    rw [List.foldl_cons, ih _ hnodup.2, mapAssign_fresh m q.2 _ hq]
    · simp
    · intro p hp
      rw [mapLookup_mapAssign, if_neg]
      · exact hfresh p (List.mem_cons_of_mem _ hp)
      · intro hqp
        exact hnodup.1 (hqp ▸ List.mem_map_of_mem Prod.snd hp)

/-- The lookup of the key of an entry in a map built from pairwise distinct keys. -/
theorem mapLookup_map_of_mem (worker : Worker) (ps : List (Nat × String))
    (hnodup : (ps.map Prod.snd).Nodup) (p : Nat × String) (hp : p ∈ ps) :
    mapLookup (ps.map (fun p => (p.2, handleOf worker p))) p.2 =
      some (handleOf worker p) := by
  induction ps with
  | nil => exact absurd hp (List.not_mem_nil _)
  | cons q rest ih =>
    rw [List.map_cons, List.nodup_cons] at hnodup
    rw [List.map_cons, mapLookup]
    rcases List.mem_cons.mp hp with rfl | hp
    · simp
    · have hne : q.2 ≠ p.2 := fun hqp =>
        hnodup.1 (hqp ▸ List.mem_map_of_mem Prod.snd hp)
      rw [if_neg hne]
      exact ih hnodup.2 hp

/-- A constructed call is a call of the loop whose error is nil. -/
theorem mem_constructedUnits (worker : Worker) (idx : Nat) (units : List String)
    (p : Nat × String) :
    p ∈ constructedUnits worker idx units ↔
      p ∈ units.enumFrom idx ∧ (worker p.1 p.2).2 = none := by
  simp [constructedUnits, List.mem_filter]

/-- The constructed calls of a list of pairwise distinct unit names have pairwise
distinct names. -/
theorem constructedUnits_nodup (worker : Worker) (idx : Nat) (units : List String)
    (h : units.Nodup) : ((constructedUnits worker idx units).map Prod.snd).Nodup := by
  have hsub : List.Sublist ((constructedUnits worker idx units).map Prod.snd)
      ((units.enumFrom idx).map Prod.snd) :=
    List.Sublist.map Prod.snd (List.filter_sublist _)
  rw [List.enumFrom_map_snd] at hsub
  exact hsub.nodup h

/-- Every handle of the map of `main` is the handle stored for a constructed call,
and its error is nil. -/
theorem mainLaunch_wMap_mem (worker : Worker) (order : WMap → List (String × workerCtx))
    (units : List String) (e : String × workerCtx)
    (he : e ∈ (mainLaunch worker order units).wMap) :
    (∃ p ∈ constructedUnits worker 0 units, e = (p.2, handleOf worker p)) ∧
    e.2.err = none := by
  rw [(mainLaunch_wg_wMap worker order units).2, launchLoop_wMap] at he
  rcases mem_foldl_mapAssign worker _ _ e he with h | ⟨p, hp, rfl⟩
  · exact absurd h (List.not_mem_nil _)
  · exact ⟨⟨p, hp, rfl⟩, ((mem_constructedUnits worker 0 units p).mp hp).2⟩

/-- When every call of `worker` failed, no call was constructed. -/
theorem constructedUnits_eq_nil (worker : Worker) (units : List String)
    (h : ∀ p ∈ units.enum, (worker p.1 p.2).2 ≠ none) :
    constructedUnits worker 0 units = [] := by
  rw [List.eq_nil_iff_forall_not_mem]
  intro p hp
  obtain ⟨hmem, hnil⟩ := (mem_constructedUnits worker 0 units p).mp hp
  exact h p hmem hnil

/-- The fan-out and what follows it hold no `wg.Add(1)` and no `wg.Done()`. -/
theorem fanout_counts (entries : List (String × workerCtx)) :
    countAdd (entries.map (fun e => Action.sendStart e.2.signalch) ++
      [Action.goSignalHandler, Action.goMaxRunHandler, Action.wgWait]) = 0 ∧
    countDone (entries.map (fun e => Action.sendStart e.2.signalch) ++
      [Action.goSignalHandler, Action.goMaxRunHandler, Action.wgWait]) = 0 := by
  unfold countAdd countDone
  constructor <;>
  · rw [List.count_eq_zero]
    simp

/-- Counterexample to C6 as stated: in Scenario B (one unit, whose construction
fails) the handle map after the launch loop is empty, so it holds no handle for
the unit, with a non-nil `err` or otherwise. -/
theorem C6_counterexample_failed_unit_has_no_handle :
    (workerAllFail 0 "a").2 ≠ none ∧
    (launchLoop workerAllFail initState 0 ["a"]).wMap = [] ∧
    mapLookup (mainLaunch workerAllFail id ["a"]).wMap "a" = none ∧
    ¬ ∃ e ∈ (mainLaunch workerAllFail id ["a"]).wMap, e.1 = "a" ∧ e.2.err ≠ none := by
  decide

/-- Claim C6, amended. A session that fails construction occupies no handle: after
the launch loop of `main` every handle of `wMap` has a nil `err` and is the handle
stored for a call of `worker` that returned a nil error; a unit name whose every
call of `worker` returned a non-nil error has no entry in `wMap`; and every start
signal of the fan-out is sent on the channel of a handle of `wMap` whose `err` is
nil. -/
theorem C6_failed_construction_stores_no_handle (worker : Worker)
    (order : WMap → List (String × workerCtx)) (units : List String)
    (horder : RangeOrder order) :
    (∀ e ∈ (mainLaunch worker order units).wMap,
      e.2.err = none ∧ ∃ p ∈ constructedUnits worker 0 units, e = (p.2, handleOf worker p)) ∧
    (∀ f : String, (∀ p ∈ units.enum, p.2 = f → (worker p.1 p.2).2 ≠ none) →
      mapLookup (mainLaunch worker order units).wMap f = none) ∧
    (∀ ch ∈ sentChans (mainLaunch worker order units).trace,
      ∃ e ∈ (mainLaunch worker order units).wMap, e.2.signalch = ch ∧ e.2.err = none) := by
  refine ⟨?_, ?_, ?_⟩
  · intro e he
    exact ⟨(mainLaunch_wMap_mem worker order units e he).2,
      (mainLaunch_wMap_mem worker order units e he).1⟩
  · intro f hf
    rw [(mainLaunch_wg_wMap worker order units).2, launchLoop_wMap, mapLookup_foldl_other]
    · rfl
    · intro p hp hpf
      obtain ⟨hmem, hnil⟩ := (mem_constructedUnits worker 0 units p).mp hp
      exact hf p hmem hpf hnil
  · intro ch hch
    rw [mainLaunch_sentChans, List.mem_map] at hch
    obtain ⟨e, he, rfl⟩ := hch
    rw [List.mem_filter] at he
    refine ⟨e, ?_, rfl, of_decide_eq_true he.2⟩
    rw [(mainLaunch_wg_wMap worker order units).2]
    exact (horder _).subset he.1

/-- Witness for C6 (amended): with one failing and one succeeding unit, the
failing unit has no entry in the handle map. -/
theorem C6_failed_construction_stores_no_handle_witness :
    mapLookup (mainLaunch workerGoodOnly id ["bad.json", "good.json"]).wMap "bad.json" = none :=
  (C6_failed_construction_stores_no_handle workerGoodOnly id ["bad.json", "good.json"]
    (fun m => List.Perm.refl m)).2.1 "bad.json" (by decide)

/-- Claim C7. Completion barrier accounting in the launch loop of `main`. Each pass
of the loop body calls `wg.Add(1)` once, and `wg.Done()` once when the call of
`worker` failed and not at all when it succeeded. Over the whole of `main` the
number of `wg.Add(1)` is the number of units and the number of `wg.Done()` is the
number of failed calls; right after the loop, and still at `wg.Wait()`, what `main`
has added to the counter is the number of calls constructed without error. When
every call failed that is zero and `main` sends no start signal. -/
theorem C7_barrier_accounting (worker : Worker)
    (order : WMap → List (String × workerCtx)) (units : List String)
    (horder : RangeOrder order) :
    (∀ (st : MainState) (idx : Nat) (file : String),
      countAdd (launchBody worker st idx file).trace = countAdd st.trace + 1 ∧
      countDone (launchBody worker st idx file).trace =
        countDone st.trace + (if (worker idx file).2 = none then 0 else 1) ∧
      (launchBody worker st idx file).wg =
        st.wg + 1 - (if (worker idx file).2 = none then 0 else 1)) ∧
    countAdd (mainLaunch worker order units).trace = units.length ∧
    countDone (mainLaunch worker order units).trace = (failedUnits worker 0 units).length ∧
    (launchLoop worker initState 0 units).wg =
      ((constructedUnits worker 0 units).length : Int) ∧
    (mainLaunch worker order units).wg = ((constructedUnits worker 0 units).length : Int) ∧
    (mainLaunch worker order units).wg =
      (countAdd (mainLaunch worker order units).trace : Int) -
        (countDone (mainLaunch worker order units).trace : Int) ∧
    ((∀ p ∈ units.enum, (worker p.1 p.2).2 ≠ none) →
      (mainLaunch worker order units).wg = 0 ∧
      sentChans (mainLaunch worker order units).trace = []) := by
  have hwg : (launchLoop worker initState 0 units).wg =
      ((constructedUnits worker 0 units).length : Int) := by
    rw [launchLoop_wg]
    simp [initState]
  have hadd : countAdd (mainLaunch worker order units).trace = units.length := by
    rw [mainLaunch_trace]
    unfold countAdd
    rw [List.count_append]
    have h1 := (launchActions_counts worker 0 units).1
    have h2 := (fanout_counts ((order (launchLoop worker initState 0 units).wMap).filter
      (fun e => decide (e.2.err = none)))).1
    unfold countAdd at h1 h2
    rw [h1, h2]
    rfl
  have hdone : countDone (mainLaunch worker order units).trace =
      (failedUnits worker 0 units).length := by
    rw [mainLaunch_trace]
    unfold countDone
    rw [List.count_append]
    have h1 := (launchActions_counts worker 0 units).2
    have h2 := (fanout_counts ((order (launchLoop worker initState 0 units).wMap).filter
      (fun e => decide (e.2.err = none)))).2
    unfold countDone at h1 h2
    rw [h1, h2]
    rfl
  refine ⟨?_, hadd, hdone, hwg, ?_, ?_, ?_⟩
  · intro st idx file
    rw [launchBody_trace, launchBody_wg, launchBody_actions]
    unfold countAdd countDone
    rw [List.count_append, List.count_append]
    split_ifs <;> simp [List.count_cons]
  · rw [(mainLaunch_wg_wMap worker order units).1, hwg]
  · rw [(mainLaunch_wg_wMap worker order units).1, hwg, hadd, hdone]
    have := constructed_add_failed worker 0 units
    omega
  · intro hfail
    have hnil := constructedUnits_eq_nil worker units hfail
    constructor
    · rw [(mainLaunch_wg_wMap worker order units).1, hwg, hnil]
      rfl
    · rw [mainLaunch_sentChans, launchLoop_wMap, hnil]
      have hperm : (order []).Perm [] := horder []
      simp [initState, List.Perm.eq_nil hperm]

/-- Witness for C7 in Scenario B: one unit, whose construction fails. -/
theorem C7_barrier_accounting_witness :
    (mainLaunch workerAllFail id ["unknown-vendor.json"]).wg = 0 ∧
    sentChans (mainLaunch workerAllFail id ["unknown-vendor.json"]).trace = [] :=
  (C7_barrier_accounting workerAllFail id ["unknown-vendor.json"]
    (fun m => List.Perm.refl m)).2.2.2.2.2.2 (by decide)

/-- When the names of the units constructed without error are pairwise distinct
(a name may still repeat among the failed calls), the launch gives one control
handle and one start signal per session: the handle map holds exactly one handle
per call of `worker` constructed without error, under the name of its unit; the
start signals `main` sends are, up to order, the channels of those calls, one
each, so their number is the number of workers constructed without error; and
the start signals go, one each, to the handles of `wMap` whose `err` is nil, all
handles being such. -/
theorem start_signals_of_distinct_constructed_names (worker : Worker)
    (order : WMap → List (String × workerCtx)) (units : List String)
    (hkeys : ((constructedUnits worker 0 units).map Prod.snd).Nodup)
    (horder : RangeOrder order) :
    (mainLaunch worker order units).wMap =
      (constructedUnits worker 0 units).map (fun p => (p.2, handleOf worker p)) ∧
    (∀ p ∈ constructedUnits worker 0 units,
      mapLookup (mainLaunch worker order units).wMap p.2 = some (handleOf worker p) ∧
      (handleOf worker p).err = none) ∧
    (sentChans (mainLaunch worker order units).trace).Perm (constructedChans worker units) ∧
    (sentChans (mainLaunch worker order units).trace).length =
      (constructedUnits worker 0 units).length ∧
    (sentChans (mainLaunch worker order units).trace).Perm
      (((mainLaunch worker order units).wMap.filter
        (fun e => decide (e.2.err = none))).map (fun e => e.2.signalch)) ∧
    (∀ e ∈ (mainLaunch worker order units).wMap, e.2.err = none) := by
  have hmap : (mainLaunch worker order units).wMap =
      (constructedUnits worker 0 units).map (fun p => (p.2, handleOf worker p)) := by
    rw [(mainLaunch_wg_wMap worker order units).2, launchLoop_wMap,
      foldl_mapAssign_fresh worker _ initState.wMap hkeys (fun _ _ => rfl)]
    simp [initState]
  have herr : ∀ e ∈ (mainLaunch worker order units).wMap, e.2.err = none :=
    fun e he => (mainLaunch_wMap_mem worker order units e he).2
  have hsent : (sentChans (mainLaunch worker order units).trace).Perm
      (((mainLaunch worker order units).wMap.filter
        (fun e => decide (e.2.err = none))).map (fun e => e.2.signalch)) := by
    rw [mainLaunch_sentChans, (mainLaunch_wg_wMap worker order units).2]
    exact ((horder _).filter _).map _
  have hall : (mainLaunch worker order units).wMap.filter
      (fun e => decide (e.2.err = none)) = (mainLaunch worker order units).wMap := by
    rw [List.filter_eq_self]
    intro e he
    exact decide_eq_true (herr e he)
  have hchans : (sentChans (mainLaunch worker order units).trace).Perm
      (constructedChans worker units) := by
    refine hsent.trans ?_
    rw [hall, hmap, constructedChans, List.map_map]
    exact List.Perm.of_eq rfl
  refine ⟨hmap, ?_, hchans, ?_, hsent, herr⟩
  · intro p hp
    refine ⟨?_, ((mem_constructedUnits worker 0 units p).mp hp).2⟩
    rw [hmap]
    exact mapLookup_map_of_mem worker _ hkeys p hp
  · rw [hchans.length_eq, constructedChans, List.length_map]

/-- The case of distinct constructed names at a repeated unit name: with `"a"`
given twice, the first call failing and the second succeeding, the one
constructed worker is sent the one start signal. -/
theorem start_signals_of_distinct_constructed_names_witness :
    (sentChans (mainLaunch workerSecondOnly id ["a", "a"]).trace).Perm
      (constructedChans workerSecondOnly ["a", "a"]) :=
  (start_signals_of_distinct_constructed_names workerSecondOnly id ["a", "a"] (by decide)
    (fun m => List.Perm.refl m)).2.2.1

/-- Claim C8. The claim, one handle and one start signal per session whose
construction succeeded, repeated unit names allowed, against `main` at the unit
name `"a"` given twice with both calls of `worker` succeeding, on the channels
`0` and `1`. `main` calls `wg.Add(1)` twice and `worker` twice and stores a handle
twice under the key `"a"`, the second replacing the first; its counter stands at
`2` at the wait; the handle map holds the one handle of channel `1`; and, in
every iteration order of the map, `main` sends one start signal, on channel
`1`. Two workers were constructed and one start signal is sent: the worker of
channel `0` is sent none. -/
theorem C8_repeated_unit_loses_start_signal :
    (mainLaunch workerAllOk id ["a", "a"]).trace =
      [Action.wgAdd 1, Action.callWorker 0 "a", Action.mapStore "a" ⟨0, none⟩,
       Action.wgAdd 1, Action.callWorker 1 "a", Action.mapStore "a" ⟨1, none⟩,
       Action.sendStart 1,
       Action.goSignalHandler, Action.goMaxRunHandler, Action.wgWait] ∧
    (mainLaunch workerAllOk id ["a", "a"]).wg = 2 ∧
    constructedChans workerAllOk ["a", "a"] = [0, 1] ∧
    (mainLaunch workerAllOk id ["a", "a"]).wMap = [("a", ⟨1, none⟩)] ∧
    (∀ order : WMap → List (String × workerCtx), RangeOrder order →
      sentChans (mainLaunch workerAllOk order ["a", "a"]).trace = [1]) ∧
    (0 ∈ constructedChans workerAllOk ["a", "a"] ∧
      0 ∉ sentChans (mainLaunch workerAllOk id ["a", "a"]).trace) ∧
    (sentChans (mainLaunch workerAllOk id ["a", "a"]).trace).length ≠
      (constructedUnits workerAllOk 0 ["a", "a"]).length := by
  refine ⟨by decide, by decide, by decide, by decide, ?_, by decide, by decide⟩
  intro order horder
  have hmap : (launchLoop workerAllOk initState 0 ["a", "a"]).wMap = [("a", ⟨1, none⟩)] := by
    decide
  rw [mainLaunch_sentChans, hmap, List.perm_singleton.mp (horder _)]
  decide

/-- Claim C9. Construct-all-then-start-all. In the actions of `main` for any batch of
units: `worker` is called for every unit; every call of `worker` comes before
every send of a start signal, so that when a start signal is sent the call for
every unit of the batch has been made; every send of a start signal comes before
the launch of either stop monitor, as does every call of `worker`; and both stop
monitors are launched. -/
theorem C9_construct_all_then_start_all (worker : Worker)
    (order : WMap → List (String × workerCtx)) (units : List String) :
    (∀ p ∈ units.enum,
      Action.callWorker p.1 p.2 ∈ (mainLaunch worker order units).trace) ∧
    (∀ (i j : Nat) (a : Action) (ch : Chan),
      (mainLaunch worker order units).trace[i]? = some a → a.isCallWorker = true →
      (mainLaunch worker order units).trace[j]? = some (Action.sendStart ch) → i < j) ∧
    (∀ (j : Nat) (ch : Chan),
      (mainLaunch worker order units).trace[j]? = some (Action.sendStart ch) →
      ∀ p ∈ units.enum, ∃ i, i < j ∧
        (mainLaunch worker order units).trace[i]? = some (Action.callWorker p.1 p.2)) ∧
    (∀ (j k : Nat) (ch : Chan) (b : Action),
      (mainLaunch worker order units).trace[j]? = some (Action.sendStart ch) →
      (mainLaunch worker order units).trace[k]? = some b → b.isMonitor = true → j < k) ∧
    (∀ (i k : Nat) (a b : Action),
      (mainLaunch worker order units).trace[i]? = some a → a.isCallWorker = true →
      (mainLaunch worker order units).trace[k]? = some b → b.isMonitor = true → i < k) ∧
    Action.goSignalHandler ∈ (mainLaunch worker order units).trace ∧
    Action.goMaxRunHandler ∈ (mainLaunch worker order units).trace := by
  have hcalls : ∀ p ∈ units.enum,
      Action.callWorker p.1 p.2 ∈ (mainLaunch worker order units).trace := by
    intro p hp
    rw [mainLaunch_trace]
    exact List.mem_append_left _ (launchActions_calls worker 0 units p hp)
  have hbefore : ∀ (i j : Nat) (a : Action) (ch : Chan),
      (mainLaunch worker order units).trace[i]? = some a → a.isCallWorker = true →
      (mainLaunch worker order units).trace[j]? = some (Action.sendStart ch) → i < j := by
    intro i j a ch hi ha hj
    rw [mainLaunch_trace] at hi hj
    refine position_lt_of_split _ _ (fun x => x.isCallWorker = true)
      (fun x => ∃ c, x = Action.sendStart c) ?_ ?_ i j a _ hi hj ha ⟨ch, rfl⟩
    · rintro x hx ⟨c, rfl⟩
      exact (launchActions_kinds worker 0 units _ hx).2.1 c rfl
    · intro x hx
      rcases List.mem_append.mp hx with hx | hx
      · obtain ⟨e, -, rfl⟩ := List.mem_map.mp hx
        simp [Action.isCallWorker]
      · simp only [List.mem_cons, List.mem_singleton, List.not_mem_nil, or_false] at hx
        rcases hx with rfl | rfl | rfl <;> simp [Action.isCallWorker]
  have hmonitor : ∀ (j k : Nat) (a b : Action),
      (mainLaunch worker order units).trace[j]? = some a →
      (a.isCallWorker = true ∨ ∃ c, a = Action.sendStart c) →
      (mainLaunch worker order units).trace[k]? = some b → b.isMonitor = true → j < k := by
    intro j k a b hj ha hk hb
    rw [mainLaunch_trace, ← List.append_assoc] at hj hk
    refine position_lt_of_split _ _
      (fun x => x.isCallWorker = true ∨ ∃ c, x = Action.sendStart c)
      (fun x => x.isMonitor = true) ?_ ?_ j k a b hj hk ha hb
    · intro x hx
      rcases List.mem_append.mp hx with hx | hx
      · simp [(launchActions_kinds worker 0 units _ hx).1]
      · obtain ⟨e, -, rfl⟩ := List.mem_map.mp hx
        simp [Action.isMonitor]
    · intro x hx
      simp only [List.mem_cons, List.mem_singleton, List.not_mem_nil, or_false] at hx
      rcases hx with rfl | rfl | rfl <;> simp [Action.isCallWorker]
  refine ⟨hcalls, hbefore, ?_, ?_, ?_, ?_, ?_⟩
  · intro j ch hj p hp
    obtain ⟨i, hi⟩ := List.mem_iff_getElem?.mp (hcalls p hp)
    exact ⟨i, hbefore i j _ ch hi rfl hj, hi⟩
  · intro j k ch b hj hk hb
    exact hmonitor j k _ b hj (Or.inr ⟨ch, rfl⟩) hk hb
  · intro i k a b hi ha hk hb
    exact hmonitor i k a b hi (Or.inl ha) hk hb
  · rw [mainLaunch_trace]
    simp
  · rw [mainLaunch_trace]
    simp

/-- Witness for C9: with one failing and one succeeding unit, the call of `worker`
for the second unit, at position 4 of the trace, comes before the start signal,
at position 6. -/
theorem C9_construct_all_then_start_all_witness :
    (mainLaunch workerGoodOnly id ["bad.json", "good.json"]).trace[4]? =
      some (Action.callWorker 1 "good.json") ∧
    (mainLaunch workerGoodOnly id ["bad.json", "good.json"]).trace[6]? =
      some (Action.sendStart 1) ∧
    4 < 6 :=
  ⟨by decide, by decide,
   (C9_construct_all_then_start_all workerGoodOnly id ["bad.json", "good.json"]).2.1 4 6
    (Action.callWorker 1 "good.json") 1 (by decide) (by decide) (by decide)⟩

example : getVendor (jctxOfName "") = (some newJuniperJUNOS, none) := by decide
example : getVendor (jctxOfName "cisco-iosxr") = (some newCiscoIOSXR, none) := by decide
example : getVendor (jctxOfName "x") =
    (none, some "support for vendor [x] has not implemented yet") := by decide

example : (mainLaunch workerGoodOnly id ["bad.json", "good.json"]).trace =
    [Action.wgAdd 1, Action.callWorker 0 "bad.json", Action.wgDone,
     Action.wgAdd 1, Action.callWorker 1 "good.json", Action.mapStore "good.json" ⟨1, none⟩,
     Action.sendStart 1, Action.goSignalHandler, Action.goMaxRunHandler, Action.wgWait] := by
  decide
example : (mainLaunch workerAllOk id ["a", "a"]).wMap = [("a", ⟨1, none⟩)] := by decide
example : sentChans (mainLaunch workerAllOk id ["a", "a"]).trace = [1] := by decide
example : (mainLaunch workerAllFail id ["a"]).wMap = [] := by decide

end Jtimon
